import Mathlib

/-!
Shallow embedding of `src/deepseek_python_20250428_5dae0e.py`, an ASK
(amplitude-shift keying) telecommunication pipeline: configuration
(`SistemaTelecom.__init__`), modulation (`modulacion_ask`), noise injection
(`agregar_ruido`), envelope demodulation (`demodulacion_ask`) and bit-error
rate (`calcular_ber`).

Modelling conventions:
* numpy float arrays become lists over an arbitrary linear ordered field `α`
  (instantiated with `ℚ` to evaluate witnesses); the time axis, which the code
  builds with `np.linspace` from exact integer parameters, is kept in `ℚ`;
* the transcendental ingredients are parameters: `sinf` stands for `np.sin`,
  `piv` for `np.pi`, `sqrtf` for `np.sqrt`, `powf` for `x ↦ 10 ** (x / 10)`,
  and the Butterworth coefficient lists `b`, `a` produced by
  `scipy.signal.butter` are passed in opaquely;
* randomness is a parameter too: `g k` is the k-th standard normal draw, so
  `np.random.normal(0, s, n)` becomes the list with entries `s * g k`;
* a Python exception becomes `Option`/`Except`: numpy fancy indexing out of
  bounds yields `none`, and `calcular_ber` returns `Except TelecomError ℚ`.
-/

/-- Errors raised by the Python code: `ValueError` with a message,
`AttributeError` from touching an unset instance field. -/
inductive TelecomError where
  | valueError (msg : String) : TelecomError
  | attributeError : TelecomError
deriving DecidableEq

/-- The configuration state set up by `SistemaTelecom.__init__`
(lines 6-19): stores the three integer parameters and derives
`duracion_bit = 1 / tasa_bits` (exact rational) and
`muestras_por_bit = int(fs / tasa_bits)` (float division truncated,
i.e. natural-number division). -/
structure SistemaTelecom where
  tasa_bits : ℕ
  fc : ℕ
  fs : ℕ
  duracion_bit : ℚ
  muestras_por_bit : ℕ

/-- `SistemaTelecom.__init__(tasa_bits, frecuencia_portadora,
frecuencia_muestreo)`: no validation is performed, every parameter triple is
accepted. -/
def SistemaTelecom.init (tasa_bits frecuencia_portadora frecuencia_muestreo : ℕ) :
    SistemaTelecom where
  tasa_bits := tasa_bits
  fc := frecuencia_portadora
  fs := frecuencia_muestreo
  duracion_bit := 1 / (tasa_bits : ℚ)
  muestras_por_bit := frecuencia_muestreo / tasa_bits

/-- `np.linspace(0, stop, num, endpoint=False)`: `num` points
`k * (stop / num)`, `k = 0, …, num - 1`. -/
def linspace (stop : ℚ) (num : ℕ) : List ℚ :=
  (List.range num).map fun (k : ℕ) => (k : ℚ) * (stop / (num : ℚ))

/-- Slice assignment `s[lo:hi] = f` on an array viewed as a function:
indices in `[lo, hi)` take the new value, the rest keep the old one. -/
def sliceAssign {α : Type} (s : ℕ → α) (lo hi : ℕ) (f : ℕ → α) : ℕ → α :=
  fun k => if lo ≤ k ∧ k < hi then f k else s k

/-- The loop `for i, bit in enumerate(bits): if bit == 1:
senal[i*mpb:(i+1)*mpb] = f` (lines 31-35), with `i0` the index of the first
remaining bit. -/
def modLoop {α : Type} (mpb : ℕ) (f : ℕ → α) :
    List ℕ → ℕ → (ℕ → α) → (ℕ → α)
  | [], _, s => s
  | bit :: rest, i0, s =>
      modLoop mpb f rest (i0 + 1)
        (if bit = 1 then sliceAssign s (i0 * mpb) ((i0 + 1) * mpb) f else s)

/-- `SistemaTelecom.modulacion_ask(bits, amplitud)` (lines 26-38): builds the
time axis `t = np.linspace(0, len(bits)*duracion_bit, len(bits)*mpb,
endpoint=False)`, starts from `np.zeros_like(t)` and writes
`amplitud * sin(2*pi*fc*t[k])` over the window of every bit equal to 1.
Returns the pair (modulated signal, time axis). -/
def modulacion_ask {α : Type} [LinearOrderedField α]
    (sinf : α → α) (piv : α) (cfg : SistemaTelecom)
    (bits : List ℕ) (amplitud : α) : List α × List ℚ :=
  let t : List ℚ :=
    linspace ((bits.length : ℚ) * cfg.duracion_bit) (bits.length * cfg.muestras_por_bit)
  let carrier : ℕ → α := fun k =>
    amplitud * sinf (2 * piv * (cfg.fc : α) * ((t.getD k 0 : ℚ) : α))
  let senalFun : ℕ → α := modLoop cfg.muestras_por_bit carrier bits 0 (fun _ => 0)
  ((List.range (bits.length * cfg.muestras_por_bit)).map senalFun, t)

/-- `SistemaTelecom.agregar_ruido(senal, snr_db)` (lines 40-47):
`potencia_senal = np.mean(senal ** 2)`,
`potencia_ruido = potencia_senal / 10 ** (snr_db / 10)` (the power `10 **
(snr_db / 10)` is `powf snr_db`), and the noise draw
`np.random.normal(0, sqrt(potencia_ruido), len(senal))` is modelled as
`sqrtf potencia_ruido * g k` with `g` the stream of standard normal draws. -/
def agregar_ruido {α : Type} [LinearOrderedField α]
    (sqrtf powf : α → α) (g : ℕ → α) (senal : List α) (snr_db : α) : List α :=
  let potencia_senal : α := ((senal.map fun x => x ^ 2).sum) / (senal.length : α)
  let potencia_ruido : α := potencia_senal / powf snr_db
  let ruido : List α := (List.range senal.length).map fun k => sqrtf potencia_ruido * g k
  List.zipWith (· + ·) senal ruido

/-- One step of `scipy.signal.lfilter`: with `n` samples of output `ys`
already produced, the next output is
`(Σ_{k ≤ n} b[k] * x[n-k] - Σ_{1 ≤ k ≤ n} a[k] * y[n-k]) / a[0]`
(zero initial conditions: terms reaching before the start vanish). -/
def lfilterStep {α : Type} [LinearOrderedField α]
    (b a : List α) (x : List α) (ys : List α) : α :=
  let n := ys.length
  let bsum : α :=
    ((List.range b.length).map fun k =>
      if k ≤ n then b.getD k 0 * x.getD (n - k) 0 else 0).sum
  let asum : α :=
    ((List.range a.length).map fun k =>
      if 1 ≤ k ∧ k ≤ n then a.getD k 0 * ys.getD (n - k) 0 else 0).sum
  (bsum - asum) / a.getD 0 1

/-- `scipy.signal.lfilter(b, a, x)`: causal IIR filtering with zero initial
state; the output has the same length as the input. -/
def lfilter {α : Type} [LinearOrderedField α] (b a : List α) (x : List α) : List α :=
  (List.range x.length).foldl (fun ys _ => ys ++ [lfilterStep b a x ys]) []

/-- The sampling index of bit `i` (lines 59-60):
`int((i + 0.5) * muestras_por_bit)`, i.e. the floor of the exact product. -/
def puntoMuestreo (mpb i : ℕ) : ℕ :=
  Nat.floor (((i : ℚ) + 1 / 2) * (mpb : ℚ))

/-- `SistemaTelecom.demodulacion_ask(senal_ruidosa, umbral)` (lines 49-67):
rectify with `np.abs`, low-pass filter with the Butterworth coefficients
`b`, `a` via `lfilter`, read the filtered signal at the midpoint index of
each of the `numBits` stored bits, and output 1 exactly when the sample is
strictly above the threshold.  numpy fancy indexing raises `IndexError` when
some index is out of bounds, modelled by `none`. -/
def demodulacion_ask {α : Type} [LinearOrderedField α]
    (b a : List α) (cfg : SistemaTelecom) (numBits : ℕ)
    (senal_ruidosa : List α) (umbral : α) : Option (List ℕ) :=
  let senal_rectificada : List α := senal_ruidosa.map fun x => |x|
  let senal_filtrada : List α := lfilter b a senal_rectificada
  let puntos : List ℕ := (List.range numBits).map (puntoMuestreo cfg.muestras_por_bit)
  if puntos.all (fun p => p < senal_filtrada.length) then
    some (puntos.map fun p => if umbral < senal_filtrada.getD p 0 then 1 else 0)
  else none

/-- `np.sum(bits != bits_recuperados)` for equal-length sequences: the number
of positions where the two differ. -/
def countMismatch (xs ys : List ℕ) : ℕ :=
  (List.zipWith (fun x y => decide ¬x = y) xs ys).count true

/-- The elementwise comparison `bits != bits_recuperados` with numpy
broadcasting: equal lengths compare pointwise, a length-1 operand is
broadcast, anything else raises (`none`). -/
def neqCompare (xs ys : List ℕ) : Option (List Bool) :=
  if xs.length = ys.length then some (List.zipWith (fun x y => decide ¬x = y) xs ys)
  else if xs.length = 1 then some (ys.map fun y => decide ¬xs.headD 0 = y)
  else if ys.length = 1 then some (xs.map fun x => decide ¬x = ys.headD 0)
  else none

/-- `SistemaTelecom.calcular_ber()` (lines 69-74) acting on the stored
fields: `bits` and `bits_recuperados` are `none` when the attribute was never
set.  The code first checks `hasattr(self, 'bits_recuperados')` and raises
`ValueError("Primero debe demodular la señal")` when absent; then it reads
`self.bits` (an `AttributeError` when absent), compares, and returns
`errores / len(self.bits)`. -/
def calcular_ber (bits bits_recuperados : Option (List ℕ)) : Except TelecomError ℚ :=
  match bits_recuperados with
  | none => .error (.valueError "Primero debe demodular la señal")
  | some recuperados =>
    match bits with
    | none => .error .attributeError
    | some bs =>
      match neqCompare bs recuperados with
      | none => .error (.valueError "operands could not be broadcast together")
      | some cmp => .ok ((cmp.count true : ℚ) / (bs.length : ℚ))

/-! ### Helper lemmas -/

lemma getD_map_range {β : Type} (d : β) (f : ℕ → β) (n k : ℕ) (h : k < n) :
    ((List.range n).map f).getD k d = f k := by
  simp [List.getD, List.getElem?_map, List.getElem?_range h]

lemma linspace_length (stop : ℚ) (num : ℕ) : (linspace stop num).length = num := by
  unfold linspace
  rw [List.length_map, List.length_range]

lemma linspace_getD (stop : ℚ) (num k : ℕ) (h : k < num) :
    (linspace stop num).getD k 0 = (k : ℚ) * (stop / (num : ℚ)) := by
  unfold linspace
  exact getD_map_range 0 (fun (k : ℕ) => (k : ℚ) * (stop / (num : ℚ))) num k h

lemma modLoop_of_lt {α : Type} (mpb : ℕ) (f : ℕ → α) (bits : List ℕ) (i0 : ℕ)
    (s : ℕ → α) (k : ℕ) (hk : k < i0 * mpb) :
    modLoop mpb f bits i0 s k = s k := by
  induction bits generalizing i0 s with
  | nil => rfl
  | cons bit rest ih =>
    rw [modLoop, ih (i0 + 1) _ (hk.trans_le (Nat.mul_le_mul_right mpb (Nat.le_succ i0)))]
    by_cases hb : bit = 1
    · rw [if_pos hb]
      simp only [sliceAssign]
      exact if_neg fun h => absurd hk (Nat.not_lt.mpr h.1)
    · rw [if_neg hb]

lemma modLoop_window {α : Type} (mpb : ℕ) (f : ℕ → α) (bits : List ℕ) (i0 : ℕ)
    (s : ℕ → α) (j k : ℕ) (hj : j < bits.length)
    (hlo : (i0 + j) * mpb ≤ k) (hhi : k < (i0 + j + 1) * mpb) :
    modLoop mpb f bits i0 s k = if bits.getD j 0 = 1 then f k else s k := by
  induction bits generalizing i0 s j with
  | nil => exact absurd hj (Nat.not_lt_zero j)
  | cons bit rest ih =>
    rw [modLoop]
    cases j with
    | zero =>
      rw [modLoop_of_lt mpb f rest (i0 + 1) _ k (by simpa using hhi)]
      simp only [List.getD_cons_zero]
      by_cases hb : bit = 1
      · rw [if_pos hb, if_pos hb]
        simp only [sliceAssign]
        exact if_pos ⟨by simpa using hlo, by simpa using hhi⟩
      · rw [if_neg hb, if_neg hb]
    | succ j' =>
      have hj' : j' < rest.length := by simpa using hj
      have hlo' : (i0 + 1 + j') * mpb ≤ k := by
        have he : i0 + 1 + j' = i0 + (j' + 1) := by omega
        rw [he]; exact hlo
      have hhi' : k < (i0 + 1 + j' + 1) * mpb := by
        have he : i0 + 1 + j' + 1 = i0 + (j' + 1) + 1 := by omega
        rw [he]; exact hhi
      rw [ih (i0 + 1) _ j' hj' hlo' hhi']
      simp only [List.getD_cons_succ]
      have hsk : (if bit = 1 then sliceAssign s (i0 * mpb) ((i0 + 1) * mpb) f else s) k
          = s k := by
        by_cases hb : bit = 1
        · rw [if_pos hb]
          simp only [sliceAssign]
          refine if_neg fun h => ?_
          have hle : (i0 + 1) * mpb ≤ (i0 + 1 + j') * mpb :=
            Nat.mul_le_mul_right mpb (Nat.le_add_right _ _)
          exact absurd h.2 (Nat.not_lt.mpr (hle.trans hlo'))
        · rw [if_neg hb]
      rw [hsk]

lemma modLoop_cases {α : Type} (mpb : ℕ) (f : ℕ → α) (bits : List ℕ) (i0 : ℕ)
    (s : ℕ → α) (k : ℕ) :
    modLoop mpb f bits i0 s k = s k ∨ modLoop mpb f bits i0 s k = f k := by
  induction bits generalizing i0 s with
  | nil => exact Or.inl rfl
  | cons bit rest ih =>
    rcases ih (i0 + 1) (if bit = 1 then sliceAssign s (i0 * mpb) ((i0 + 1) * mpb) f else s)
      with h | h
    · rw [modLoop, h]
      by_cases hb : bit = 1
      · rw [if_pos hb]
        simp only [sliceAssign]
        by_cases hin : i0 * mpb ≤ k ∧ k < (i0 + 1) * mpb
        · rw [if_pos hin]; exact Or.inr rfl
        · rw [if_neg hin]; exact Or.inl rfl
      · rw [if_neg hb]; exact Or.inl rfl
    · rw [modLoop]; exact Or.inr h

lemma foldl_append_length {β γ : Type} (g : List γ → β → γ) (l : List β) (init : List γ) :
    (l.foldl (fun ys n => ys ++ [g ys n]) init).length = init.length + l.length := by
  induction l generalizing init with
  | nil => simp
  | cons x xs ih =>
    rw [List.foldl_cons, ih]
    simp
    omega

lemma lfilter_length {α : Type} [LinearOrderedField α] (b a x : List α) :
    (lfilter b a x).length = x.length := by
  unfold lfilter
  rw [foldl_append_length (fun ys _ => lfilterStep b a x ys) (List.range x.length) []]
  simp

lemma puntoMuestreo_eq_div (mpb i : ℕ) :
    puntoMuestreo mpb i = (2 * i + 1) * mpb / 2 := by
  unfold puntoMuestreo
  have he : ((i : ℚ) + 1 / 2) * (mpb : ℚ) = (((2 * i + 1) * mpb : ℕ) : ℚ) / ((2 : ℕ) : ℚ) := by
    push_cast
    ring
  rw [he, Nat.floor_div_eq_div]

lemma countMismatch_le_length (xs ys : List ℕ) :
    countMismatch xs ys ≤ xs.length := by
  unfold countMismatch
  calc (List.zipWith (fun x y => decide ¬x = y) xs ys).count true
      ≤ (List.zipWith (fun x y => decide ¬x = y) xs ys).length := List.count_le_length _ _
    _ = min xs.length ys.length := List.length_zipWith _ _ _
    _ ≤ xs.length := min_le_left _ _

lemma countMismatch_self (xs : List ℕ) : countMismatch xs xs = 0 := by
  unfold countMismatch
  induction xs with
  | nil => rfl
  | cons x l ih =>
    rw [List.zipWith_cons_cons]
    simpa using ih

lemma pos_of_mul_pos_nat {m n : ℕ} (h : 0 < m * n) : 0 < m ∧ 0 < n := by
  refine ⟨Nat.pos_of_ne_zero fun h0 => ?_, Nat.pos_of_ne_zero fun h0 => ?_⟩ <;>
    subst h0 <;> simp at h

/-! ### Claim theorems -/

/-- C2 (counterexample): constructing the system with `sample_rate = 500 <
bit_rate = 1000` does not fail — `SistemaTelecom.init` is a total function —
and the resulting system has `muestras_por_bit = 0`, violating both the
claimed `ConfigError` rejection and the claimed invariant
`samples_per_bit ≥ 1`. -/
theorem init_low_sample_rate_truncates :
    (SistemaTelecom.init 1000 5000 500).muestras_por_bit = 0 ∧
    ¬1 ≤ (SistemaTelecom.init 1000 5000 500).muestras_por_bit := by
  constructor <;> decide

/-- C2 (amended): construction never fails; `__init__` performs no
validation, and whenever `sample_rate < bit_rate` it silently sets
`muestras_por_bit = floor(sample_rate / bit_rate) = 0`. -/
theorem init_silently_truncates (tasa fcp fsp : ℕ) (h : fsp < tasa) :
    (SistemaTelecom.init tasa fcp fsp).muestras_por_bit = fsp / tasa ∧
    (SistemaTelecom.init tasa fcp fsp).muestras_por_bit = 0 := by
  refine ⟨rfl, ?_⟩
  show fsp / tasa = 0
  exact Nat.div_eq_of_lt h

/-- Witness for C2 (amended) at bit_rate 1000, sample_rate 500. -/
theorem init_silently_truncates_witness :
    (SistemaTelecom.init 1000 5000 500).muestras_por_bit = 500 / 1000 ∧
    (SistemaTelecom.init 1000 5000 500).muestras_por_bit = 0 :=
  init_silently_truncates 1000 5000 500 (by decide)

/-- C3 (counterexample): with the driver's own configuration (bit_rate 1000,
sample_rate 44100) the spacing between the first two time-stamps produced by
`modulacion_ask` is `1/44000`, which is not `1/sample_rate = 1/44100`: the
linspace step is `bit_duration / muestras_por_bit`, and `1000 ∤ 44100`. -/
theorem time_axis_spacing_counterexample :
    (modulacion_ask (fun x => x) (0 : ℚ) (SistemaTelecom.init 1000 5000 44100) [0] 0).2.getD 1 0
      - (modulacion_ask (fun x => x) (0 : ℚ) (SistemaTelecom.init 1000 5000 44100) [0] 0).2.getD 0 0
      = 1 / 44000 ∧ (1 / 44000 : ℚ) ≠ 1 / 44100 := by
  have h2 : (modulacion_ask (fun x => x) (0 : ℚ) (SistemaTelecom.init 1000 5000 44100) [0] 0).2
      = linspace ((([0] : List ℕ).length : ℚ) * (SistemaTelecom.init 1000 5000 44100).duracion_bit)
        (([0] : List ℕ).length * (SistemaTelecom.init 1000 5000 44100).muestras_por_bit) := rfl
  have hnum : ([0] : List ℕ).length * (SistemaTelecom.init 1000 5000 44100).muestras_por_bit
      = 44 := by decide
  constructor
  · rw [h2, hnum, linspace_getD _ _ 1 (by norm_num), linspace_getD _ _ 0 (by norm_num)]
    norm_num [SistemaTelecom.init]
  · norm_num

/-- C3 (amended): for every configuration built by `__init__` with positive
bit rate and every bit sequence, the time axis returned by `modulacion_ask`
has exactly `len(bits) * muestras_por_bit` points, starts at 0, every point
lies in the half-open interval `[0, len(bits) * duracion_bit)`, and
consecutive points are a constant `1 / (tasa_bits * muestras_por_bit)` apart
— which equals `1/sample_rate` only when `tasa_bits` divides `fs`. -/
theorem time_axis_spec {α : Type} [LinearOrderedField α] (sinf : α → α) (piv : α)
    (tasa fcp fsp : ℕ) (bits : List ℕ) (amplitud : α) (t : List ℚ)
    (ht : t = (modulacion_ask sinf piv (SistemaTelecom.init tasa fcp fsp) bits amplitud).2)
    (htasa : 0 < tasa) :
    t.length = bits.length * (SistemaTelecom.init tasa fcp fsp).muestras_por_bit ∧
    (0 < t.length → t.getD 0 0 = 0) ∧
    (∀ k, k + 1 < t.length →
      t.getD (k + 1) 0 - t.getD k 0
        = 1 / ((tasa : ℚ) * ((SistemaTelecom.init tasa fcp fsp).muestras_por_bit : ℚ))) ∧
    (∀ k, k < t.length →
      0 ≤ t.getD k 0 ∧
      t.getD k 0 < (bits.length : ℚ)
        * (SistemaTelecom.init tasa fcp fsp).duracion_bit) := by
  have h2 : t = linspace ((bits.length : ℚ) * (SistemaTelecom.init tasa fcp fsp).duracion_bit)
      (bits.length * (SistemaTelecom.init tasa fcp fsp).muestras_por_bit) := ht
  set N := bits.length with hN
  set mpb := (SistemaTelecom.init tasa fcp fsp).muestras_por_bit with hmpb
  have hdur : (SistemaTelecom.init tasa fcp fsp).duracion_bit = 1 / (tasa : ℚ) := rfl
  have htq : (0 : ℚ) < (tasa : ℚ) := by exact_mod_cast htasa
  have hstep : ∀ hpos : 0 < N * mpb,
      ((N : ℚ) * (SistemaTelecom.init tasa fcp fsp).duracion_bit) / ((N * mpb : ℕ) : ℚ)
        = 1 / ((tasa : ℚ) * (mpb : ℚ)) := by
    intro hpos
    obtain ⟨hNpos, hmpbpos⟩ := pos_of_mul_pos_nat hpos
    have hNq : ((N : ℚ)) ≠ 0 := by exact_mod_cast hNpos.ne'
    have hmq : ((mpb : ℚ)) ≠ 0 := by exact_mod_cast hmpbpos.ne'
    rw [hdur]
    push_cast
    field_simp
    ring
  refine ⟨by rw [h2, linspace_length], ?_, ?_, ?_⟩
  · intro hlen
    rw [h2, linspace_length] at hlen
    rw [h2, linspace_getD _ _ 0 hlen]
    simp
  · intro k hk
    rw [h2, linspace_length] at hk
    rw [h2, linspace_getD _ _ (k + 1) hk, linspace_getD _ _ k (Nat.lt_of_succ_lt hk)]
    have hpos : 0 < N * mpb := Nat.lt_of_le_of_lt (Nat.zero_le _) hk
    rw [hstep hpos]
    push_cast
    ring
  · intro k hk
    rw [h2, linspace_length] at hk
    rw [h2, linspace_getD _ _ k hk]
    have hpos : 0 < N * mpb := Nat.lt_of_le_of_lt (Nat.zero_le _) hk
    obtain ⟨hNpos, hmpbpos⟩ := pos_of_mul_pos_nat hpos
    have hmq : (0 : ℚ) < (mpb : ℚ) := by exact_mod_cast hmpbpos
    rw [hstep hpos]
    constructor
    · positivity
    · rw [hdur]
      have hrw : (k : ℚ) * (1 / ((tasa : ℚ) * (mpb : ℚ)))
          = (k : ℚ) / ((tasa : ℚ) * (mpb : ℚ)) := by ring
      rw [hrw, div_lt_iff₀ (by positivity)]
      calc (k : ℚ) < (N : ℚ) * (mpb : ℚ) := by exact_mod_cast hk
        _ = (N : ℚ) * (1 / (tasa : ℚ)) * ((tasa : ℚ) * (mpb : ℚ)) := by
            field_simp
            ring

/-- Witness for C3 (amended) at the driver's configuration with a single
bit. -/
theorem time_axis_spec_witness :
    ((modulacion_ask (fun x => x) (0 : ℚ) (SistemaTelecom.init 1000 5000 44100) [0] 0).2).length
      = ([0] : List ℕ).length * (SistemaTelecom.init 1000 5000 44100).muestras_por_bit :=
  (time_axis_spec (fun x => x) (0 : ℚ) 1000 5000 44100 [0] 0 _ rfl (by decide)).1

lemma modulacion_fst_eq {α : Type} [LinearOrderedField α]
    (sinf : α → α) (piv : α) (cfg : SistemaTelecom) (bits : List ℕ) (amplitud : α) :
    (modulacion_ask sinf piv cfg bits amplitud).1
      = (List.range (bits.length * cfg.muestras_por_bit)).map
          (modLoop cfg.muestras_por_bit
            (fun k => amplitud * sinf (2 * piv * (cfg.fc : α)
              * (((modulacion_ask sinf piv cfg bits amplitud).2.getD k 0 : ℚ) : α)))
            bits 0 (fun _ => 0)) := rfl

/-- C4: inside the sample window `[i*muestras_por_bit, (i+1)*muestras_por_bit)`
of bit `i`, the modulated signal equals `amplitud * sin(2*pi*fc*t[k])` when
bit `i` is 1 and equals 0 when bit `i` is 0, where `t[k]` is that sample's
time-stamp. -/
theorem modulated_sample_windows {α : Type} [LinearOrderedField α]
    (sinf : α → α) (piv : α) (cfg : SistemaTelecom) (bits : List ℕ) (amplitud : α)
    (i k : ℕ) (hi : i < bits.length)
    (hlo : i * cfg.muestras_por_bit ≤ k) (hhi : k < (i + 1) * cfg.muestras_por_bit) :
    (bits.getD i 0 = 1 →
      (modulacion_ask sinf piv cfg bits amplitud).1.getD k 0
        = amplitud * sinf (2 * piv * (cfg.fc : α)
            * (((modulacion_ask sinf piv cfg bits amplitud).2.getD k 0 : ℚ) : α))) ∧
    (bits.getD i 0 = 0 →
      (modulacion_ask sinf piv cfg bits amplitud).1.getD k 0 = 0) := by
  have hklen : k < bits.length * cfg.muestras_por_bit :=
    hhi.trans_le (Nat.mul_le_mul_right cfg.muestras_por_bit hi)
  have hwin := modLoop_window cfg.muestras_por_bit
    (fun k => amplitud * sinf (2 * piv * (cfg.fc : α)
      * (((modulacion_ask sinf piv cfg bits amplitud).2.getD k 0 : ℚ) : α)))
    bits 0 (fun _ => 0) i k hi (by simpa using hlo) (by simpa using hhi)
  rw [modulacion_fst_eq, getD_map_range _ _ _ k hklen, hwin]
  constructor
  · intro hb
    rw [if_pos hb]
  · intro hb
    rw [if_neg (by rw [hb]; exact one_ne_zero.symm)]

/-- Witness for C4: config (bit_rate 4, fc 1, fs 8) so 2 samples per bit,
a single bit equal to 1, sample 0, a mock sine returning 5, amplitude 2. -/
theorem modulated_sample_windows_witness :
    (modulacion_ask (fun _ => (5 : ℚ)) 0 (SistemaTelecom.init 4 1 8) [1] 2).1.getD 0 0 = 10 := by
  have h := (modulated_sample_windows (fun _ => (5 : ℚ)) 0 (SistemaTelecom.init 4 1 8) [1] 2
    0 0 (by decide) (by decide) (by decide)).1 (by decide)
  exact h.trans (by norm_num)

/-- C10: under the universally true bound `|sin x| ≤ 1`, every sample of the
modulated waveform has absolute value at most `|amplitud|` (samples outside
the produced range read the default 0, also bounded). -/
theorem modulated_amplitude_bound {α : Type} [LinearOrderedField α]
    (sinf : α → α) (piv : α) (cfg : SistemaTelecom) (bits : List ℕ) (amplitud : α)
    (hs : ∀ x, |sinf x| ≤ 1) (k : ℕ) :
    |(modulacion_ask sinf piv cfg bits amplitud).1.getD k 0| ≤ |amplitud| := by
  by_cases hk : k < bits.length * cfg.muestras_por_bit
  · rw [modulacion_fst_eq, getD_map_range _ _ _ k hk]
    rcases modLoop_cases cfg.muestras_por_bit
      (fun k => amplitud * sinf (2 * piv * (cfg.fc : α)
        * (((modulacion_ask sinf piv cfg bits amplitud).2.getD k 0 : ℚ) : α)))
      bits 0 (fun _ => 0) k with h | h
    · rw [h]
      simp
    · rw [h]
      calc |amplitud * sinf (2 * piv * (cfg.fc : α)
              * (((modulacion_ask sinf piv cfg bits amplitud).2.getD k 0 : ℚ) : α))|
          = |amplitud| * |sinf (2 * piv * (cfg.fc : α)
              * (((modulacion_ask sinf piv cfg bits amplitud).2.getD k 0 : ℚ) : α))| :=
            abs_mul _ _
        _ ≤ |amplitud| * 1 := mul_le_mul_of_nonneg_left (hs _) (abs_nonneg _)
        _ = |amplitud| := mul_one _
  · rw [modulacion_fst_eq, List.getD_eq_default]
    · simp
    · rw [List.length_map, List.length_range]
      exact Nat.le_of_not_lt hk

/-- Witness for C10 with a mock sine that is constantly 0. -/
theorem modulated_amplitude_bound_witness :
    |(modulacion_ask (fun _ => (0 : ℚ)) 0 (SistemaTelecom.init 4 1 8) [1, 0] 3).1.getD 1 0|
      ≤ |(3 : ℚ)| :=
  modulated_amplitude_bound (fun _ => (0 : ℚ)) 0 (SistemaTelecom.init 4 1 8) [1, 0] 3
    (fun x => by simp) 1

lemma zipWith_add_zero_right {α : Type} [LinearOrderedField α] :
    ∀ (l r : List α), r.length = l.length → (∀ x ∈ r, x = 0) →
      List.zipWith (· + ·) l r = l := by
  intro l
  induction l with
  | nil => intro r _ _; simp
  | cons x xs ih =>
    intro r hlen hzero
    cases r with
    | nil => simp at hlen
    | cons y ys =>
      rw [List.zipWith_cons_cons, hzero y (List.mem_cons_self y ys), add_zero,
        ih ys (by simpa using hlen) (fun z hz => hzero z (List.mem_cons_of_mem y hz))]

/-- C5: on an all-zero input signal the computed signal power is 0, hence the
noise power is 0, the noise standard deviation is `sqrt 0 = 0`, every noise
draw is 0, and `agregar_ruido` returns the input unchanged (all zeros, same
length) for every `snr_db`; no division-by-zero fault occurs. -/
theorem agregar_ruido_zero_signal {α : Type} [LinearOrderedField α]
    (sqrtf powf : α → α) (g : ℕ → α) (senal : List α) (snr_db : α)
    (hsq : sqrtf 0 = 0) (hz : ∀ x ∈ senal, x = 0) :
    agregar_ruido sqrtf powf g senal snr_db = senal ∧
    (agregar_ruido sqrtf powf g senal snr_db).length = senal.length ∧
    ∀ x ∈ agregar_ruido sqrtf powf g senal snr_db, x = 0 := by
  have hsum : (senal.map fun x => x ^ 2).sum = 0 := by
    refine List.sum_eq_zero fun y hy => ?_
    obtain ⟨x, hx, rfl⟩ := List.mem_map.mp hy
    rw [hz x hx]
    ring
  have hpot : ((senal.map fun x => x ^ 2).sum / (senal.length : α)) / powf snr_db = 0 := by
    rw [hsum, zero_div, zero_div]
  have hdef : agregar_ruido sqrtf powf g senal snr_db
      = List.zipWith (· + ·) senal ((List.range senal.length).map
          fun k => sqrtf (((senal.map fun x => x ^ 2).sum / (senal.length : α))
            / powf snr_db) * g k) := rfl
  have hnoise : ∀ x ∈ (List.range senal.length).map
      (fun k => sqrtf (((senal.map fun x => x ^ 2).sum / (senal.length : α))
        / powf snr_db) * g k), x = 0 := by
    intro y hy
    obtain ⟨k, _, rfl⟩ := List.mem_map.mp hy
    rw [hpot, hsq, zero_mul]
  have hmain : agregar_ruido sqrtf powf g senal snr_db = senal := by
    rw [hdef]
    exact zipWith_add_zero_right senal _ (by simp) hnoise
  exact ⟨hmain, by rw [hmain], by rw [hmain]; exact hz⟩

/-- Witness for C5: a three-sample zero signal, `sqrtf` the identity
(so `sqrtf 0 = 0`), nonzero mock noise draws. -/
theorem agregar_ruido_zero_signal_witness :
    agregar_ruido (fun x => x) (fun _ => (1 : ℚ)) (fun k => (k : ℚ) + 1) [0, 0, 0] 10
      = [0, 0, 0] :=
  (agregar_ruido_zero_signal (fun x => x) (fun _ => (1 : ℚ)) (fun k => (k : ℚ) + 1)
    [0, 0, 0] 10 rfl (by intro x hx; simpa using hx)).1

/-- C6: whenever `demodulacion_ask` returns a recovered sequence, it has one
entry per bit, and entry `i` reads the rectified-and-filtered signal at index
`floor((i + 0.5) * muestras_por_bit)` and is 1 exactly when that value is
strictly greater than the threshold, 0 otherwise. -/
theorem demod_sampling_and_threshold {α : Type} [LinearOrderedField α]
    (b a : List α) (cfg : SistemaTelecom) (numBits : ℕ) (senal : List α) (umbral : α)
    (recup : List ℕ)
    (hr : demodulacion_ask b a cfg numBits senal umbral = some recup) :
    recup.length = numBits ∧
    ∀ i, i < numBits →
      recup.getD i 0
        = if umbral < (lfilter b a (senal.map fun x => |x|)).getD
            (Nat.floor (((i : ℚ) + 1 / 2) * (cfg.muestras_por_bit : ℚ))) 0
          then 1 else 0 := by
  have hdef : demodulacion_ask b a cfg numBits senal umbral
      = if ((List.range numBits).map (puntoMuestreo cfg.muestras_por_bit)).all
            (fun p => p < (lfilter b a (senal.map fun x => |x|)).length)
        then some (((List.range numBits).map (puntoMuestreo cfg.muestras_por_bit)).map
              fun p => if umbral < (lfilter b a (senal.map fun x => |x|)).getD p 0
                then 1 else 0)
        else none := rfl
  rw [hdef] at hr
  by_cases hc : ((List.range numBits).map (puntoMuestreo cfg.muestras_por_bit)).all
      (fun p => p < (lfilter b a (senal.map fun x => |x|)).length)
  · rw [if_pos hc] at hr
    have hrec := Option.some.inj hr
    constructor
    · rw [← hrec, List.length_map, List.length_map, List.length_range]
    · intro i hi
      rw [← hrec, List.map_map, getD_map_range _ _ _ i hi]
      rfl
  · rw [if_neg hc] at hr
    exact absurd hr (by simp)

/-- Witness for C6: degenerate filter coefficients make the filtered signal
identically 0, threshold -1, two samples for one bit. -/
theorem demod_sampling_and_threshold_witness :
    ([1] : List ℕ).getD 0 0
      = if (-1 : ℚ) < (lfilter ([] : List ℚ) [] ([1, 1].map fun x => |x|)).getD
          (Nat.floor ((((0 : ℕ) : ℚ) + 1 / 2)
            * ((SistemaTelecom.init 4 1 8).muestras_por_bit : ℚ))) 0
        then 1 else 0 :=
  (demod_sampling_and_threshold ([] : List ℚ) [] (SistemaTelecom.init 4 1 8) 1 [1, 1]
    (-1) [1]
    (by simp [demodulacion_ask, lfilter, lfilterStep, puntoMuestreo_eq_div,
      SistemaTelecom.init, List.range_succ])).2 0 (by norm_num)

/-- C7: with `muestras_por_bit ≥ 1` and an input signal of length
`numBits * muestras_por_bit`, every midpoint sampling index is strictly
within the bounds of the filtered signal, and the demodulator succeeds (no
`IndexError`). -/
theorem demod_indices_in_bounds {α : Type} [LinearOrderedField α]
    (b a : List α) (cfg : SistemaTelecom) (numBits : ℕ) (senal : List α) (umbral : α)
    (hmpb : 1 ≤ cfg.muestras_por_bit)
    (hlen : senal.length = numBits * cfg.muestras_por_bit) :
    (∀ i, i < numBits →
      puntoMuestreo cfg.muestras_por_bit i
        < (lfilter b a (senal.map fun x => |x|)).length) ∧
    ∃ recup, demodulacion_ask b a cfg numBits senal umbral = some recup := by
  have hfl : (lfilter b a (senal.map fun x => |x|)).length
      = numBits * cfg.muestras_por_bit := by
    rw [lfilter_length, List.length_map, hlen]
  have hmpbpos : 0 < cfg.muestras_por_bit := hmpb
  have hidx : ∀ i, i < numBits →
      puntoMuestreo cfg.muestras_por_bit i < numBits * cfg.muestras_por_bit := by
    intro i hi
    rw [puntoMuestreo_eq_div]
    have h1 : (2 * i + 1) * cfg.muestras_por_bit / 2 < (i + 1) * cfg.muestras_por_bit := by
      rw [Nat.div_lt_iff_lt_mul (by norm_num)]
      calc (2 * i + 1) * cfg.muestras_por_bit
          < (2 * (i + 1)) * cfg.muestras_por_bit :=
            (Nat.mul_lt_mul_right hmpbpos).mpr (by omega)
        _ = (i + 1) * cfg.muestras_por_bit * 2 := by ring
    exact h1.trans_le (Nat.mul_le_mul_right _ (Nat.succ_le_of_lt hi))
  refine ⟨fun i hi => by rw [hfl]; exact hidx i hi, ?_⟩
  have hall : ((List.range numBits).map (puntoMuestreo cfg.muestras_por_bit)).all
      (fun p => p < (lfilter b a (senal.map fun x => |x|)).length) = true := by
    simp only [List.all_eq_true, decide_eq_true_eq]
    intro p hp
    obtain ⟨i, hi, rfl⟩ := List.mem_map.mp hp
    rw [hfl]
    exact hidx i (List.mem_range.mp hi)
  have hdef : demodulacion_ask b a cfg numBits senal umbral
      = if ((List.range numBits).map (puntoMuestreo cfg.muestras_por_bit)).all
            (fun p => p < (lfilter b a (senal.map fun x => |x|)).length)
        then some (((List.range numBits).map (puntoMuestreo cfg.muestras_por_bit)).map
              fun p => if umbral < (lfilter b a (senal.map fun x => |x|)).getD p 0
                then 1 else 0)
        else none := rfl
  exact ⟨_, by rw [hdef, if_pos hall]⟩

/-- Witness for C7: one bit, two samples per bit, input of length 2. -/
theorem demod_indices_in_bounds_witness :
    ∃ recup, demodulacion_ask ([] : List ℚ) [] (SistemaTelecom.init 4 1 8) 1 [1, 1] (1 / 2)
      = some recup :=
  (demod_indices_in_bounds ([] : List ℚ) [] (SistemaTelecom.init 4 1 8) 1 [1, 1] (1 / 2)
    (by decide) rfl).2

/-- C8: calling `calcular_ber` while no recovered bit sequence exists raises
`ValueError("Primero debe demodular la señal")`, whatever the state of
`bits`; once a recovered sequence exists the computation never fails with
that invalid-state error (it may still fail differently, e.g. with an
`AttributeError` on `bits` or a broadcast error, but not for lack of a
demodulation run). -/
theorem ber_requires_demodulation :
    (∀ bits : Option (List ℕ),
      calcular_ber bits none
        = .error (.valueError "Primero debe demodular la señal")) ∧
    (∀ (bits : Option (List ℕ)) (recuperados : List ℕ),
      calcular_ber bits (some recuperados)
        ≠ .error (.valueError "Primero debe demodular la señal")) := by
  constructor
  · intro bits
    rfl
  · intro bits recuperados
    cases bits with
    | none => simp [calcular_ber]
    | some bs =>
      cases hcmp : neqCompare bs recuperados with
      | none => simp [calcular_ber, hcmp]
      | some cmp => simp [calcular_ber, hcmp]

/-- Witness for C8: before demodulation the call errors; with a recovered
sequence present it does not raise the invalid-state error. -/
theorem ber_requires_demodulation_witness :
    calcular_ber (some [1, 0]) none
      = .error (.valueError "Primero debe demodular la señal") ∧
    calcular_ber (some [1, 0]) (some [1, 1])
      ≠ .error (.valueError "Primero debe demodular la señal") :=
  ⟨ber_requires_demodulation.1 (some [1, 0]),
    ber_requires_demodulation.2 (some [1, 0]) [1, 1]⟩

/-- C9: for equal-length non-empty sequences, `calcular_ber` returns the
number of mismatched positions divided by the length; the ratio lies in
`[0, 1]`, and it is 0 when the recovered sequence equals the original. -/
theorem ber_formula (orig recuperados : List ℕ)
    (hlen : orig.length = recuperados.length) (hpos : 0 < orig.length) :
    calcular_ber (some orig) (some recuperados)
      = .ok ((countMismatch orig recuperados : ℚ) / (orig.length : ℚ)) ∧
    0 ≤ (countMismatch orig recuperados : ℚ) / (orig.length : ℚ) ∧
    (countMismatch orig recuperados : ℚ) / (orig.length : ℚ) ≤ 1 ∧
    (recuperados = orig →
      (countMismatch orig recuperados : ℚ) / (orig.length : ℚ) = 0) := by
  have hcmp : neqCompare orig recuperados
      = some (List.zipWith (fun x y => decide ¬x = y) orig recuperados) := by
    unfold neqCompare
    rw [if_pos hlen]
  have hposq : (0 : ℚ) < (orig.length : ℚ) := by exact_mod_cast hpos
  refine ⟨?_, ?_, ?_, ?_⟩
  · simp [calcular_ber, hcmp, countMismatch]
  · positivity
  · rw [div_le_one hposq]
    exact_mod_cast countMismatch_le_length orig recuperados
  · intro h
    rw [h, countMismatch_self]
    simp

/-- Witness for C9 on the pair `[1,0]` vs `[1,1]` (one mismatch in two). -/
theorem ber_formula_witness :
    calcular_ber (some [1, 0]) (some [1, 1])
      = .ok ((countMismatch [1, 0] [1, 1] : ℚ) / (([1, 0] : List ℕ).length : ℚ)) :=
  (ber_formula [1, 0] [1, 1] rfl (by decide)).1
